import Mathlib

/-!
Verification of the YARP Rust binding generator (`src/rust/yarp/build.rs`).

The generator is a Rust build script: it loads a YAML schema of AST node
declarations and emits the Rust binding source text.  This development gives a
shallow embedding of the generator's pure logic:

* the naming transforms `struct_name` / `type_name` (build.rs lines 100-127);
* the doc-comment fencing loop inside `write_node` (lines 130-151);
* the per-field accessor strategy selection of `write_node` (lines 178-273)
  and the `Debug` rendering skeleton (lines 278-304);
* the discriminant dispatch of the generated `Node::new` and the per-kind
  downcasts `as_*` emitted by `write_bindings` (lines 657-699);
* the list/iterator shape shared by the four generated list families
  (lines 456-629);
* the child-field selection of the generated default visit functions
  in `write_visit` (lines 333-390).

Characters of Rust `&str` values are modelled as their Unicode scalar values
(`Nat`).  The identifiers the generator processes are ASCII CamelCase node
names, and on the ASCII range Rust's `char::is_uppercase`,
`char::to_lowercase().next().unwrap()` and `char::to_uppercase().next().unwrap()`
coincide with the ASCII case maps embedded below.
-/

/-- Rust `char::is_uppercase`, restricted to the ASCII range the schema's
CamelCase identifiers are drawn from: true exactly on `'A'..='Z'`
(code points 65..90). -/
def char_is_uppercase (c : Nat) : Bool :=
  decide (65 ≤ c ∧ c ≤ 90)

/-- Rust `char::to_lowercase().next().unwrap()` on the ASCII range:
maps `'A'..='Z'` to `'a'..='z'` and leaves everything else unchanged. -/
def char_to_lowercase (c : Nat) : Nat :=
  if char_is_uppercase c then c + 32 else c

/-- Rust `char::to_uppercase().next().unwrap()` on the ASCII range:
maps `'a'..='z'` to `'A'..='Z'` and leaves everything else unchanged. -/
def char_to_uppercase (c : Nat) : Nat :=
  if decide (97 ≤ c ∧ c ≤ 122) then c - 32 else c

/-- `struct_name` (build.rs lines 101-112): the loop pushes `'_'` (code 95)
before every character that is uppercase, then pushes the lowercased
character.  The growing Rust `String` is the `foldl` accumulator. -/
def struct_name (name : List Nat) : List Nat :=
  name.foldl
    (fun result c =>
      (if char_is_uppercase c then result ++ [95] else result)
        ++ [char_to_lowercase c])
    []

/-- The fixed `"YP_NODE"` namespace prefix pushed by `type_name`
(build.rs line 117), as code points. -/
def YP_NODE : List Nat := [89, 80, 95, 78, 79, 68, 69]

/-- `type_name` (build.rs lines 115-127): starts from `"YP_NODE"`, then for
each character pushes `'_'` before uppercase characters and pushes the
uppercased character. -/
def type_name (name : List Nat) : List Nat :=
  name.foldl
    (fun result c =>
      (if char_is_uppercase c then result ++ [95] else result)
        ++ [char_to_uppercase c])
    YP_NODE

/-- The block of output characters `struct_name` contributes for one input
character. -/
def struct_block (c : Nat) : List Nat :=
  (if char_is_uppercase c then [95] else []) ++ [char_to_lowercase c]

/-- The block of output characters `type_name` contributes for one input
character (after the fixed prefix). -/
def type_block (c : Nat) : List Nat :=
  (if char_is_uppercase c then [95] else []) ++ [char_to_uppercase c]

/-- ASCII letters and digits: the alphabet CamelCase identifiers are drawn
from. -/
def letter_or_digit (c : Nat) : Bool :=
  decide ((65 ≤ c ∧ c ≤ 90) ∨ (97 ≤ c ∧ c ≤ 122) ∨ (48 ≤ c ∧ c ≤ 57))

/-- A valid CamelCase identifier: non-empty, made of ASCII letters and
digits, starting with an uppercase letter. -/
def camel_ident (s : List Nat) : Prop :=
  s ≠ [] ∧ (∀ c ∈ s, letter_or_digit c = true) ∧
    ∀ c ∈ s.take 1, char_is_uppercase c = true

instance (s : List Nat) : Decidable (camel_ident s) := by
  unfold camel_ident; infer_instance

lemma struct_name_foldl (s : List Nat) (acc : List Nat) :
    s.foldl
      (fun result c =>
        (if char_is_uppercase c then result ++ [95] else result)
          ++ [char_to_lowercase c]) acc
      = acc ++ s.flatMap struct_block := by
  induction s generalizing acc with
  | nil => simp
  | cons c cs ih =>
      simp only [List.foldl_cons, List.flatMap_cons, ih, struct_block]
      by_cases h : char_is_uppercase c <;> simp [h]

lemma type_name_foldl (s : List Nat) (acc : List Nat) :
    s.foldl
      (fun result c =>
        (if char_is_uppercase c then result ++ [95] else result)
          ++ [char_to_uppercase c]) acc
      = acc ++ s.flatMap type_block := by
  induction s generalizing acc with
  | nil => simp
  | cons c cs ih =>
      simp only [List.foldl_cons, List.flatMap_cons, ih, type_block]
      by_cases h : char_is_uppercase c <;> simp [h]

lemma struct_name_eq_flatMap (s : List Nat) :
    struct_name s = s.flatMap struct_block := by
  simpa using struct_name_foldl s []

lemma type_name_eq_flatMap (s : List Nat) :
    type_name s = YP_NODE ++ s.flatMap type_block := by
  simpa using type_name_foldl s YP_NODE

lemma char_to_uppercase_of_uppercase {c : Nat} (h : char_is_uppercase c = true) :
    char_to_uppercase c = c := by
  simp only [char_is_uppercase, decide_eq_true_eq] at h
  simp only [char_to_uppercase, decide_eq_true_eq]
  split_ifs <;> omega

lemma char_upper_lower (c : Nat) :
    char_to_uppercase (char_to_lowercase c) = char_to_uppercase c := by
  simp only [char_to_lowercase, char_to_uppercase, char_is_uppercase,
    decide_eq_true_eq]
  split_ifs <;> omega

lemma char_to_lowercase_of_not_uppercase {c : Nat}
    (h : char_is_uppercase c = false) : char_to_lowercase c = c := by
  simp [char_to_lowercase, h]

lemma char_to_lowercase_ne_95 {c : Nat} (h : letter_or_digit c = true) :
    char_to_lowercase c ≠ 95 := by
  simp only [letter_or_digit, decide_eq_true_eq] at h
  simp only [char_to_lowercase, char_is_uppercase, decide_eq_true_eq]
  split_ifs <;> omega

lemma char_to_uppercase_ne_95 {c : Nat} (h : letter_or_digit c = true) :
    char_to_uppercase c ≠ 95 := by
  simp only [letter_or_digit, decide_eq_true_eq] at h
  simp only [char_to_uppercase, decide_eq_true_eq]
  split_ifs <;> omega

lemma char_lower_upper_of_not_uppercase {c : Nat}
    (hu : char_is_uppercase c = false) :
    char_to_lowercase (char_to_uppercase c) = c := by
  simp only [char_is_uppercase, decide_eq_false_iff_not] at hu
  simp only [char_to_lowercase, char_to_uppercase, char_is_uppercase,
    decide_eq_true_eq]
  split_ifs <;> omega

/-- Left inverse of `struct_name` over the letter/digit alphabet: reads a
`'_'` as "next character was uppercase". -/
def decode_struct : List Nat → List Nat
  | [] => []
  | [c] => if c = 95 then [] else [c]
  | c :: d :: rest =>
      if c = 95 then char_to_uppercase d :: decode_struct rest
      else c :: decode_struct (d :: rest)

/-- Left inverse of the per-character body of `type_name` over the
letter/digit alphabet. -/
def decode_type : List Nat → List Nat
  | [] => []
  | [c] => if c = 95 then [] else [char_to_lowercase c]
  | c :: d :: rest =>
      if c = 95 then d :: decode_type rest
      else char_to_lowercase c :: decode_type (d :: rest)

lemma decode_struct_cons_ne {c : Nat} (rest : List Nat) (h : c ≠ 95) :
    decode_struct (c :: rest) = c :: decode_struct rest := by
  cases rest <;> simp [decode_struct, h]

lemma decode_struct_cons95 (d : Nat) (rest : List Nat) :
    decode_struct (95 :: d :: rest) = char_to_uppercase d :: decode_struct rest := by
  simp [decode_struct]

lemma decode_type_cons_ne {c : Nat} (rest : List Nat) (h : c ≠ 95) :
    decode_type (c :: rest) = char_to_lowercase c :: decode_type rest := by
  cases rest <;> simp [decode_type, h]

lemma decode_type_cons95 (d : Nat) (rest : List Nat) :
    decode_type (95 :: d :: rest) = d :: decode_type rest := by
  simp [decode_type]

lemma decode_struct_round (s : List Nat)
    (h : ∀ c ∈ s, letter_or_digit c = true) :
    decode_struct (s.flatMap struct_block) = s := by
  induction s with
  | nil => rfl
  | cons c cs ih =>
      have hc : letter_or_digit c = true := h c (by simp)
      have hcs : ∀ x ∈ cs, letter_or_digit x = true :=
        fun x hx => h x (by simp [hx])
      rw [List.flatMap_cons]
      by_cases hu : char_is_uppercase c = true
      · have hblock : struct_block c = [95, char_to_lowercase c] := by
          simp [struct_block, hu]
        rw [hblock]
        simp only [List.cons_append, List.nil_append]
        rw [decode_struct_cons95, char_upper_lower,
          char_to_uppercase_of_uppercase hu, ih hcs]
      · have hu' : char_is_uppercase c = false := by
          simpa using hu
        simp only [struct_block, hu', if_false, Bool.false_eq_true,
          List.nil_append]
        rw [char_to_lowercase_of_not_uppercase hu', List.singleton_append,
          decode_struct_cons_ne _ ?hne, ih hcs]
        case hne =>
          have := char_to_lowercase_ne_95 hc
          rwa [char_to_lowercase_of_not_uppercase hu'] at this

lemma decode_type_round (s : List Nat)
    (h : ∀ c ∈ s, letter_or_digit c = true) :
    decode_type (s.flatMap type_block) = s := by
  induction s with
  | nil => rfl
  | cons c cs ih =>
      have hc : letter_or_digit c = true := h c (by simp)
      have hcs : ∀ x ∈ cs, letter_or_digit x = true :=
        fun x hx => h x (by simp [hx])
      rw [List.flatMap_cons]
      by_cases hu : char_is_uppercase c = true
      · have hblock : type_block c = [95, c] := by
          simp [type_block, hu, char_to_uppercase_of_uppercase hu]
        rw [hblock]
        simp only [List.cons_append, List.nil_append]
        rw [decode_type_cons95, ih hcs]
      · have hu' : char_is_uppercase c = false := by
          simpa using hu
        simp only [type_block, hu', if_false, Bool.false_eq_true,
          List.nil_append]
        rw [List.singleton_append, decode_type_cons_ne _ (char_to_uppercase_ne_95 hc),
          char_lower_upper_of_not_uppercase hu', ih hcs]

lemma char_to_uppercase_95 : char_to_uppercase 95 = 95 := by decide

lemma map_upper_struct_block (c : Nat) :
    (struct_block c).map char_to_uppercase = type_block c := by
  by_cases h : char_is_uppercase c = true <;>
    simp [struct_block, type_block, h, char_upper_lower, char_to_uppercase_95]

/-- **C6.** `struct_name` is total over identifier strings: its output is the
in-order concatenation, over the input characters, of the separator `'_'`
(exactly when the character is uppercase, including when it is the first
character) followed by the lowercased character; it fails on no input. -/
theorem struct_name_per_char_spec (s : List Nat)
    (_hne : s ≠ []) (_hid : ∀ c ∈ s, letter_or_digit c = true) :
    struct_name s =
      s.flatMap (fun c =>
        (if char_is_uppercase c then [95] else []) ++ [char_to_lowercase c]) ∧
    (∀ c cs, s = c :: cs → char_is_uppercase c = true →
      struct_name s = 95 :: char_to_lowercase c :: struct_name cs) ∧
    (∀ c cs, s = c :: cs → char_is_uppercase c = false →
      struct_name s = char_to_lowercase c :: struct_name cs) := by
  refine ⟨struct_name_eq_flatMap s, ?_, ?_⟩
  · rintro c cs rfl hu
    rw [struct_name_eq_flatMap, struct_name_eq_flatMap, List.flatMap_cons]
    simp [struct_block, hu]
  · rintro c cs rfl hu
    rw [struct_name_eq_flatMap, struct_name_eq_flatMap, List.flatMap_cons]
    simp [struct_block, hu]

/-- Witness for C6 at the identifier `"Ab"` (code points `[65, 98]`): the
uppercase first character receives a leading separator. -/
theorem struct_name_per_char_spec_witness :
    struct_name [65, 98] = 95 :: char_to_lowercase 65 :: struct_name [98] := by
  have h := struct_name_per_char_spec [65, 98] (by decide) (by decide)
  exact h.2.1 65 [98] rfl (by decide)

/-- **C9.** `type_name` is the fixed prefix `"YP_NODE"` followed by the
uppercase image of `struct_name`: both transforms insert the separator at
exactly the same input positions, differing only in the prefix and the case
of the emitted characters. -/
theorem type_name_eq_prefix_upper_struct_name (s : List Nat) :
    type_name s = YP_NODE ++ (struct_name s).map char_to_uppercase := by
  rw [type_name_eq_flatMap, struct_name_eq_flatMap, List.map_flatMap]
  congr 1
  induction s with
  | nil => rfl
  | cons c cs ih =>
      simp only [List.flatMap_cons, ih, map_upper_struct_block]

/-- **C7.** Over valid CamelCase identifiers the naming transforms are
injective: distinct node names give distinct struct names and distinct tag
constant names. -/
theorem naming_transforms_injective (M N : List Nat)
    (hM : camel_ident M) (hN : camel_ident N) (hne : M ≠ N) :
    struct_name M ≠ struct_name N ∧ type_name M ≠ type_name N := by
  obtain ⟨-, hMc, -⟩ := hM
  obtain ⟨-, hNc, -⟩ := hN
  constructor
  · intro h
    apply hne
    have h2 := congrArg decode_struct h
    rw [struct_name_eq_flatMap M, struct_name_eq_flatMap N] at h2
    rwa [decode_struct_round M hMc, decode_struct_round N hNc] at h2
  · intro h
    apply hne
    rw [type_name_eq_flatMap M, type_name_eq_flatMap N] at h
    have h2 := congrArg decode_type (List.append_cancel_left h)
    rwa [decode_type_round M hMc, decode_type_round N hNc] at h2

/-- Witness for C7 at the node names `"A"` and `"B"`. -/
theorem naming_transforms_injective_witness :
    struct_name [65] ≠ struct_name [66] ∧ type_name [65] ≠ type_name [66] :=
  naming_transforms_injective [65] [66] (by decide) (by decide) (by decide)

/-- `line.strip_prefix("    ")` (build.rs line 134): strips a leading 4-space
indent (code point 32 is the space), or fails. -/
def strip_indent4 : List Nat → Option (List Nat)
  | 32 :: 32 :: 32 :: 32 :: rest => some rest
  | _ => none

/-- One line of the comment stream emitted by the doc-comment loop of
`write_node`: the opening fence ``/// ```ruby``, the closing fence
``/// ````, or an ordinary comment line ``/// {line}``. -/
inductive DocLine
  | fenceOpen : DocLine
  | fenceClose : DocLine
  | text : List Nat → DocLine
  deriving DecidableEq

/-- The doc-comment loop of `write_node` (build.rs lines 131-151): the `ex`
argument is the mutable `example` flag, the emitted lines are collected in
order; after the last line a pending open fence is closed. -/
def write_comment_lines (ex : Bool) : List (List Nat) → List DocLine
  | [] => if ex then [DocLine.fenceClose] else []
  | line :: rest =>
      match strip_indent4 line with
      | some stripped =>
          (if ex then [] else [DocLine.fenceOpen])
            ++ DocLine.text stripped :: write_comment_lines true rest
      | none =>
          (if ex then [DocLine.fenceClose] else [])
            ++ DocLine.text line :: write_comment_lines false rest

/-- The whole doc-comment formatter: the `example` flag starts false. -/
def format_comment (lines : List (List Nat)) : List DocLine :=
  write_comment_lines false lines

/-- Dyck balance check for fence markers starting from nesting depth `d`:
a close fence needs a pending open fence, and the stream must end at
depth 0. -/
def fences_balanced (d : Nat) : List DocLine → Bool
  | [] => d == 0
  | DocLine.fenceOpen :: ls => fences_balanced (d + 1) ls
  | DocLine.fenceClose :: ls => decide (0 < d) && fences_balanced (d - 1) ls
  | DocLine.text _ :: ls => fences_balanced d ls

/-- The stripped form of an indented line (total version of
`strip_indent4`). -/
def stripped (l : List Nat) : List Nat :=
  (strip_indent4 l).getD l

lemma write_comment_lines_balanced (lines : List (List Nat)) :
    ∀ ex, fences_balanced (if ex then 1 else 0)
      (write_comment_lines ex lines) = true := by
  induction lines with
  | nil => intro ex; cases ex <;> simp [write_comment_lines, fences_balanced]
  | cons l rest ih =>
      intro ex
      cases h : strip_indent4 l with
      | some s =>
          cases ex <;> simp [write_comment_lines, h, fences_balanced] <;>
            simpa using ih true
      | none =>
          cases ex <;> simp [write_comment_lines, h, fences_balanced] <;>
            simpa using ih false

lemma write_comment_lines_no_indent (lines : List (List Nat))
    (h : ∀ l ∈ lines, strip_indent4 l = none) :
    write_comment_lines false lines = lines.map DocLine.text := by
  induction lines with
  | nil => rfl
  | cons l rest ih =>
      have hl := h l (by simp)
      have hrest := ih (fun x hx => h x (by simp [hx]))
      simp [write_comment_lines, hl, hrest]

lemma write_comment_lines_all_indent (lines : List (List Nat))
    (h : ∀ l ∈ lines, (strip_indent4 l).isSome = true) :
    write_comment_lines true lines
      = lines.map (fun l => DocLine.text (stripped l)) ++ [DocLine.fenceClose] := by
  induction lines with
  | nil => simp [write_comment_lines]
  | cons l rest ih =>
      obtain ⟨s, hs⟩ := Option.isSome_iff_exists.mp (h l (by simp))
      have hrest := ih (fun x hx => h x (by simp [hx]))
      simp [write_comment_lines, hs, hrest, stripped]

/-- **C5.** The doc-comment formatter always emits balanced fence markers
(a trailing close is emitted when the input ends inside an indented run);
the example block `["intro", "    a = 1", "    b = 2", "outro"]` yields
`["intro", open, "a = 1", "b = 2", close, "outro"]`; an input with no
4-space-indented lines yields no fence markers; a non-empty block of only
indented lines yields exactly one open/close pair wrapping the block. -/
theorem doc_comment_fencing (lines : List (List Nat)) :
    fences_balanced 0 (format_comment lines) = true ∧
    format_comment
        [[105, 110, 116, 114, 111],
         [32, 32, 32, 32, 97, 32, 61, 32, 49],
         [32, 32, 32, 32, 98, 32, 61, 32, 50],
         [111, 117, 116, 114, 111]]
      = [DocLine.text [105, 110, 116, 114, 111], DocLine.fenceOpen,
         DocLine.text [97, 32, 61, 32, 49], DocLine.text [98, 32, 61, 32, 50],
         DocLine.fenceClose, DocLine.text [111, 117, 116, 114, 111]] ∧
    ((∀ l ∈ lines, strip_indent4 l = none) →
      format_comment lines = lines.map DocLine.text) ∧
    (lines ≠ [] → (∀ l ∈ lines, (strip_indent4 l).isSome = true) →
      format_comment lines
        = DocLine.fenceOpen ::
            lines.map (fun l => DocLine.text (stripped l))
              ++ [DocLine.fenceClose]) := by
  refine ⟨?_, by rfl, fun h => write_comment_lines_no_indent lines h, ?_⟩
  · simpa [format_comment] using write_comment_lines_balanced lines false
  · intro hne hall
    cases lines with
    | nil => exact absurd rfl hne
    | cons l rest =>
        obtain ⟨s, hs⟩ := Option.isSome_iff_exists.mp (hall l (by simp))
        have hrest := write_comment_lines_all_indent rest
          (fun x hx => hall x (by simp [hx]))
        simp [format_comment, write_comment_lines, hs, hrest, stripped]

/-- Witness for C5 at the all-indented block `["    a"]`. -/
theorem doc_comment_fencing_witness :
    format_comment [[32, 32, 32, 32, 97]]
      = DocLine.fenceOpen ::
          [[32, 32, 32, 32, 97]].map (fun l => DocLine.text (stripped l))
            ++ [DocLine.fenceClose] :=
  (doc_comment_fencing [[32, 32, 32, 32, 97]]).2.2.2 (by decide) (by decide)

/-- `NodeFieldType` (build.rs lines 11-45): the closed set of field kind
tags of the schema (`node`, `node?`, `node[]`, `string`, `constant`,
`constant[]`, `location`, `location?`, `location[]`, `uint32`, `flags`). -/
inductive NodeFieldType
  | Node
  | OptionalNode
  | NodeList
  | String
  | Constant
  | ConstantList
  | Location
  | OptionalLocation
  | LocationList
  | UInt32
  | Flags
  deriving DecidableEq

/-- `NodeField` (build.rs lines 47-55).  Identifiers are code-point lists. -/
structure NodeField where
  name : List Nat
  field_type : NodeFieldType
  kind : Option (List Nat)
  deriving DecidableEq

/-- `Node` (build.rs lines 57-65), one schema node declaration; the comment
is kept as its list of lines. -/
structure Node where
  name : List Nat
  fields : List NodeField
  comment : List (List Nat)
  deriving DecidableEq

/-- The scan deciding whether a node has any child-bearing field
(build.rs lines 337-346): true exactly on `Node`, `OptionalNode`,
`NodeList`. -/
def is_child_field (t : NodeFieldType) : Bool :=
  match t with
  | NodeFieldType.Node => true
  | NodeFieldType.OptionalNode => true
  | NodeFieldType.NodeList => true
  | _ => false

/-- One statement of a generated default traversal body:
`visitor.visit_kind(&node.field())` for a narrowed required child,
`visitor.visit(&node.field())` for a generic one (both collapsed into
`visitRequired` with the narrowing recorded), the null-guarded variant for
an optional child, and the element loop for a child list. -/
inductive VisitStep
  | visitRequired (field : List Nat) (narrowed : Option (List Nat))
  | visitOptional (field : List Nat) (narrowed : Option (List Nat))
  | visitList (field : List Nat)
  deriving DecidableEq

/-- The statements the traversal generator emits for one field
(build.rs lines 354-381): one visit statement for each of the three
child-bearing kinds, nothing for every other kind. -/
def visit_field_steps (f : NodeField) : List VisitStep :=
  match f.field_type with
  | NodeFieldType.Node => [VisitStep.visitRequired f.name f.kind]
  | NodeFieldType.OptionalNode => [VisitStep.visitOptional f.name f.kind]
  | NodeFieldType.NodeList => [VisitStep.visitList f.name]
  | _ => []

/-- The body of the generated default traversal function for one node
(build.rs lines 336-389): if the scan finds a child-bearing field the body
is the concatenation of the per-field statements in declared order,
otherwise the function is generated with an empty body. -/
def visit_body (n : Node) : List VisitStep :=
  if n.fields.any (fun f => is_child_field f.field_type) then
    n.fields.flatMap visit_field_steps
  else []

/-- The single visit statement for a child-bearing field. -/
def visit_step_of (f : NodeField) : VisitStep :=
  match f.field_type with
  | NodeFieldType.OptionalNode => VisitStep.visitOptional f.name f.kind
  | NodeFieldType.NodeList => VisitStep.visitList f.name
  | _ => VisitStep.visitRequired f.name f.kind

lemma visit_flatMap_eq_filter_map (fields : List NodeField) :
    fields.flatMap visit_field_steps
      = (fields.filter (fun f => is_child_field f.field_type)).map visit_step_of := by
  induction fields with
  | nil => rfl
  | cons f fs ih =>
      rcases f with ⟨name, ft, kind⟩
      cases ft <;>
        simp [visit_field_steps, is_child_field, visit_step_of, ih,
          List.filter_cons]

lemma visit_body_eq_filter_map (n : Node) :
    visit_body n
      = (n.fields.filter (fun f => is_child_field f.field_type)).map
          visit_step_of := by
  unfold visit_body
  by_cases h : n.fields.any (fun f => is_child_field f.field_type) = true
  · rw [if_pos h, visit_flatMap_eq_filter_map]
  · rw [if_neg (by simpa using h)]
    have hf : n.fields.filter (fun f => is_child_field f.field_type) = [] := by
      rw [List.filter_eq_nil_iff]
      intro f hm hc
      exact h (List.any_eq_true.mpr ⟨f, hm, hc⟩)
    rw [hf, List.map_nil]

/-- **C1.** The generated default traversal of a node visits exactly the
fields of kind `node`, `node?`, `node[]`, in declared order (its body is
the in-order image of exactly the child-bearing fields), and a node with no
child-bearing field gets an empty default-traversal body. -/
theorem default_traversal_visits_exactly_child_fields (n : Node) :
    visit_body n
      = (n.fields.filter (fun f => is_child_field f.field_type)).map
          visit_step_of ∧
    ((∀ f ∈ n.fields, is_child_field f.field_type = false) →
      visit_body n = []) := by
  refine ⟨visit_body_eq_filter_map n, fun h => ?_⟩
  rw [visit_body_eq_filter_map n]
  have hf : n.fields.filter (fun f => is_child_field f.field_type) = [] := by
    rw [List.filter_eq_nil_iff]
    intro f hm
    simp [h f hm]
  rw [hf, List.map_nil]

/-- Witness for C1: a node whose single field is a `uint32` has an empty
default-traversal body. -/
theorem default_traversal_witness :
    visit_body
        (Node.mk [76] [NodeField.mk [118] NodeFieldType.UInt32 none] []) = [] :=
  (default_traversal_visits_exactly_child_fields
      (Node.mk [76] [NodeField.mk [118] NodeFieldType.UInt32 none] [])).2
    (by decide)

/-- The payload shared by every variant of the generated `Node` union and
by every per-kind wrapper (build.rs lines 640-654, 153-162): the parser
handle, the raw node pointer (reinterpreting the pointer to the
kind-specific layout leaves the address unchanged), and the name of the
active kind standing for the variant.  Handles and addresses are modelled
as numbers. -/
structure UnionNode where
  kind : List Nat
  parser : Nat
  pointer : Nat
  deriving DecidableEq

/-- Outcome of the generated `Node::new`: either a constructed variant or
the `panic!("Unknown node type: ...")` abort (build.rs line 674), which is
fatal — the function has no recoverable error channel at all (its Rust
return type is `Self`). -/
inductive NodeNewResult
  | variant (u : UnionNode)
  | fatalPanic (unknown_type : Nat)
  deriving DecidableEq

/-- The generated `Node::new` (build.rs lines 666-676): reads the runtime
discriminant `(*node).type_` from the common header (passed here as
`node_type`), matches it against the tag constants `tag n.name` of the
declared nodes in schema order — the first arm whose constant equals the
discriminant wins — and otherwise panics.  The tag constants come from the
external C enum `yp_node_type` (crate `yarp_sys`), so `tag` is a parameter. -/
def node_new (nodes : List Node) (tag : List Nat → Nat)
    (parser : Nat) (pointer : Nat) (node_type : Nat) : NodeNewResult :=
  match nodes.find? (fun n => tag n.name == node_type) with
  | some n => NodeNewResult.variant (UnionNode.mk n.name parser pointer)
  | none => NodeNewResult.fatalPanic node_type

/-- The generated per-kind downcast `as_kind` (build.rs lines 690-699):
returns the wrapper (same triple) when the union's active variant is the
requested kind, `None` otherwise. -/
def as_kind (k : List Nat) (u : UnionNode) : Option UnionNode :=
  if u.kind == k then some u else none

lemma find_node_by_tag (nodes : List Node) (tag : List Nat → Nat) (K : Node)
    (hK : K ∈ nodes) (htags : (nodes.map (fun n => tag n.name)).Nodup) :
    nodes.find? (fun n => tag n.name == tag K.name) = some K := by
  induction nodes with
  | nil => cases hK
  | cons n rest ih =>
      rcases List.mem_cons.mp hK with rfl | hmem
      · exact List.find?_cons_of_pos _ (by simp)
      · have hne : tag n.name ≠ tag K.name := by
          have h1 : tag K.name ∈ rest.map (fun m => tag m.name) :=
            List.mem_map.mpr ⟨K, hmem, rfl⟩
          have h2 := (List.nodup_cons.mp htags).1
          intro he
          rw [← he] at h1
          exact h2 h1
        rw [List.find?_cons_of_neg _ (by simpa using hne)]
        exact ih hmem (List.nodup_cons.mp htags).2

/-- **C2.** For a declared node kind `K` and a foreign pointer whose header
discriminant equals `K`'s tag constant, the constructed union value is
exactly the `K` variant carrying the given parser handle and pointer; on
it, `K`'s downcast succeeds and every other declared kind's downcast is
absent.  The tag constants are assumed pairwise distinct (they are values
of one C enum). -/
theorem union_construction_dispatch (nodes : List Node)
    (tag : List Nat → Nat) (parser pointer : Nat) (K : Node)
    (hK : K ∈ nodes)
    (htags : (nodes.map (fun n => tag n.name)).Nodup) :
    node_new nodes tag parser pointer (tag K.name)
      = NodeNewResult.variant (UnionNode.mk K.name parser pointer) ∧
    as_kind K.name (UnionNode.mk K.name parser pointer)
      = some (UnionNode.mk K.name parser pointer) ∧
    (∀ K2 ∈ nodes, K2.name ≠ K.name →
      as_kind K2.name (UnionNode.mk K.name parser pointer) = none) := by
  refine ⟨?_, by simp [as_kind], fun K2 _ hne => ?_⟩
  · unfold node_new
    rw [find_node_by_tag nodes tag K hK htags]
  · simp [as_kind]
    intro he
    exact absurd he.symm hne

/-- Witness for C2 with the two-node schema `A`, `B` and tag constants read
off the first code point of the name. -/
theorem union_construction_dispatch_witness :
    node_new [Node.mk [65] [] [], Node.mk [66] [] []]
        (fun s => s.headD 0) 7 11 65
      = NodeNewResult.variant (UnionNode.mk [65] 7 11) := by
  have h := union_construction_dispatch
    [Node.mk [65] [] [], Node.mk [66] [] []]
    (fun s => s.headD 0) 7 11 (Node.mk [65] [] [])
    (by decide) (by decide)
  simpa using h.1

/-- **C3.** A runtime discriminant matching no declared node kind's tag
constant makes the generated constructor abort via `panic!` — modelled by
the dedicated `fatalPanic` outcome: the function's only other outcome is a
constructed variant, so there is no recoverable error value and no retry. -/
theorem union_construction_unknown_tag_panics (nodes : List Node)
    (tag : List Nat → Nat) (parser pointer node_type : Nat)
    (h : ∀ n ∈ nodes, tag n.name ≠ node_type) :
    node_new nodes tag parser pointer node_type
      = NodeNewResult.fatalPanic node_type := by
  unfold node_new
  have hf : nodes.find? (fun n => tag n.name == node_type) = none := by
    rw [List.find?_eq_none]
    intro n hn
    simpa using h n hn
  rw [hf]

/-- Witness for C3: discriminant 99 matches no tag of the one-node
schema. -/
theorem union_construction_unknown_tag_panics_witness :
    node_new [Node.mk [65] [] []] (fun s => s.headD 0) 7 11 99
      = NodeNewResult.fatalPanic 99 :=
  union_construction_unknown_tag_panics [Node.mk [65] [] []]
    (fun s => s.headD 0) 7 11 99 (by decide)

/-- The generated `Location` view (build.rs lines 409-412): a wrapper over
a non-null `yp_location_t` pointer, modelled as the numeric address. -/
structure Location where
  pointer : Nat
  deriving DecidableEq

/-- The accessor body emitted for a `location?` (`OptionalLocation`) field
(build.rs lines 246-255): given the computed field pointer (address 0 is
the null pointer), a null pointer becomes `None` and a non-null pointer
becomes `Some` of a `Location` view over that pointer. -/
def optional_location_accessor (pointer : Nat) : Option Location :=
  if pointer == 0 then none else some (Location.mk pointer)

/-- **C4.** The `OptionalLocation` accessor surfaces a null underlying
pointer as `None` — no `Location` view is built from null — and a non-null
pointer as `Some` of the `Location` view over exactly that pointer. -/
theorem optional_location_null_absent (p : Nat) :
    (p = 0 → optional_location_accessor p = none) ∧
    (p ≠ 0 → optional_location_accessor p = some (Location.mk p)) := by
  constructor <;> intro h <;> simp [optional_location_accessor, h]

/-- Witness for C4 at the null pointer and at address 5. -/
theorem optional_location_null_absent_witness :
    optional_location_accessor 0 = none ∧
    optional_location_accessor 5 = some (Location.mk 5) :=
  ⟨(optional_location_null_absent 0).1 rfl,
   (optional_location_null_absent 5).2 (by decide)⟩

/-- The foreign "size + backing array" record behind every generated list
family (build.rs lines 456-629); `elem` abstracts reading and
materializing the element at an index (tag-dispatched `Node::new` for node
lists, plain views for location/constant lists). -/
structure ForeignList (α : Type) where
  size : Nat
  elem : Nat → α

/-- A generated iterator: the same record plus the numeric cursor `index`
(build.rs lines 457-475, 502-521). -/
structure ListIter (α : Type) where
  list : ForeignList α
  index : Nat

/-- The generated `next` (build.rs lines 466-474, 512-520): end-of-sequence
when the cursor has reached the foreign count, else the element at the
cursor and the iterator advanced by one.  Rust mutates `self.index`; here
the advanced iterator is returned alongside the item. -/
def ListIter.next {α : Type} (it : ListIter α) : Option (α × ListIter α) :=
  if it.list.size ≤ it.index then none
  else some (it.list.elem it.index, ListIter.mk it.list (it.index + 1))

/-- The generated `iter` (build.rs lines 486-492, 533-540): a fresh cursor
at 0 over the same record. -/
def ForeignList.iter {α : Type} (l : ForeignList α) : ListIter α :=
  ListIter.mk l 0

/-- Runs an iterator for `fuel` steps, collecting the yielded items. -/
def iter_seq_fuel {α : Type} : Nat → ListIter α → List α
  | 0, _ => []
  | fuel + 1, it =>
      match it.next with
      | none => []
      | some (a, it2) => a :: iter_seq_fuel fuel it2

/-- The full sequence of items an iterator yields (its remaining steps are
bounded by `size - index`). -/
def ListIter.seq {α : Type} (it : ListIter α) : List α :=
  iter_seq_fuel (it.list.size - it.index) it

lemma next_eq_some {α : Type} (it : ListIter α) (h : it.index < it.list.size) :
    it.next = some (it.list.elem it.index, ListIter.mk it.list (it.index + 1)) := by
  unfold ListIter.next
  rw [if_neg (Nat.not_le.mpr h)]

lemma next_eq_none {α : Type} (it : ListIter α) (h : it.list.size ≤ it.index) :
    it.next = none := by
  unfold ListIter.next
  rw [if_pos h]

lemma iter_seq_fuel_eq {α : Type} (fuel : Nat) :
    ∀ it : ListIter α, it.list.size ≤ it.index + fuel →
      iter_seq_fuel fuel it
        = (List.range (it.list.size - it.index)).map
            (fun i => it.list.elem (it.index + i)) := by
  induction fuel with
  | zero =>
      intro it h
      simp [iter_seq_fuel, Nat.sub_eq_zero_of_le (by simpa using h)]
  | succ fuel ih =>
      intro it h
      by_cases hend : it.list.size ≤ it.index
      · simp [iter_seq_fuel, next_eq_none it hend,
          Nat.sub_eq_zero_of_le hend]
      · push_neg at hend
        have hk : it.list.size - it.index
            = (it.list.size - (it.index + 1)) + 1 := by omega
        have hrec := ih (ListIter.mk it.list (it.index + 1)) (by simp; omega)
        simp only [iter_seq_fuel, next_eq_some it hend]
        rw [hrec, hk, List.range_succ_eq_map]
        simp only [List.map_cons, List.map_map, Nat.add_zero]
        congr 1
        apply List.map_congr_left
        intro i _
        simp only [Function.comp_apply]
        congr 1
        omega

/-- **C8.** Every iterator freshly obtained from a list starts its cursor
at 0 and yields exactly the foreign elements `0, 1, ..., size-1` in order —
so two independently constructed and independently advanced iterators over
the same list yield the same sequence; an iterator whose cursor has reached
the foreign count yields nothing further; and a yielding step leaves the
record untouched and only increments the cursor (no wraparound). -/
theorem list_iterators_restartable_no_wraparound {α : Type} :
    (∀ l : ForeignList α,
      (ForeignList.iter l).seq = (List.range l.size).map l.elem ∧
      ∀ it1 it2 : ListIter α, it1 = ForeignList.iter l →
        it2 = ForeignList.iter l → it1.seq = it2.seq) ∧
    (∀ it : ListIter α, it.list.size ≤ it.index → it.next = none) ∧
    (∀ (it it2 : ListIter α) (a : α), it.next = some (a, it2) →
      it2.list = it.list ∧ it2.index = it.index + 1) := by
  refine ⟨fun l => ⟨?_, fun it1 it2 h1 h2 => by rw [h1, h2]⟩,
    fun it h => next_eq_none it h, fun it it2 a h => ?_⟩
  · show iter_seq_fuel _ _ = _
    have := iter_seq_fuel_eq (α := α) l.size (ForeignList.iter l) (by simp [ForeignList.iter])
    simpa [ForeignList.iter] using this
  · unfold ListIter.next at h
    by_cases hend : it.list.size ≤ it.index
    · rw [if_pos hend] at h
      cases h
    · rw [if_neg hend] at h
      obtain ⟨-, h2⟩ := Prod.mk.injEq .. ▸ Option.some.injEq .. ▸ h
      cases h
      exact ⟨rfl, rfl⟩

/-- Witness for C8: the list of size 2 with elements `10 * i`. -/
theorem list_iterators_witness :
    (ForeignList.iter (ForeignList.mk 2 (fun i => i * 10))).seq = [0, 10] ∧
    (ListIter.mk (ForeignList.mk 2 (fun i => i * 10)) 2).next = none := by
  have h := list_iterators_restartable_no_wraparound (α := Nat)
  constructor
  · rw [(h.1 (ForeignList.mk 2 (fun i => i * 10))).1]
    rfl
  · exact h.2.1 (ListIter.mk (ForeignList.mk 2 (fun i => i * 10)) 2)
      (by decide)

/-- A raw schema node entry as read from YAML: the `fields` key may be
absent.  `#[serde(default)]` on `Node.fields` (build.rs lines 60-62) makes
deserialization substitute the `Vec` default — the empty sequence — when
the key is missing, and otherwise use the given sequence. -/
structure RawNodeEntry where
  name : List Nat
  fields : Option (List NodeField)
  comment : List (List Nat)

/-- Deserialization of one node entry into the config `Node`, with the
`serde(default)` behavior for the `fields` key. -/
def parse_node_entry (e : RawNodeEntry) : Node :=
  Node.mk e.name (e.fields.getD []) e.comment

/-- One operation of the generated per-node wrapper `impl`
(build.rs lines 164-275): the union conversion `as_node`, the `location`
accessor, then one accessor per declared field, in declaration order. -/
inductive WrapperOp
  | asNode
  | location
  | fieldAccessor (field : List Nat) (k : NodeFieldType)
  deriving DecidableEq

/-- The operations `write_node` emits for a node's wrapper, in emission
order. -/
def wrapper_ops (n : Node) : List WrapperOp :=
  WrapperOp.asNode :: WrapperOp.location ::
    n.fields.map (fun f => WrapperOp.fieldAccessor f.name f.field_type)

/-- The generated `Debug` rendering (build.rs lines 278-304): the node name
(code points), `'('` (40), the comma-space (44, 32) separated field value
renderings in declaration order, `')'` (41); a node without fields renders
the name followed by empty parentheses. -/
def debug_render (n : Node) (vals : List (List Nat)) : List Nat :=
  n.name ++ [40] ++ List.intercalate [44, 32] vals ++ [41]

/-- **C10.** A schema node entry omitting the `fields` key deserializes to
a node with the empty field sequence; generation succeeds for it, the
wrapper's only operations being the union conversion and the location
accessor, and its structured display rendering the node name followed by
empty parentheses. -/
theorem omitted_fields_key_defaults_empty (name : List Nat)
    (comment : List (List Nat)) :
    (parse_node_entry (RawNodeEntry.mk name none comment)).fields = [] ∧
    wrapper_ops (parse_node_entry (RawNodeEntry.mk name none comment))
      = [WrapperOp.asNode, WrapperOp.location] ∧
    debug_render (parse_node_entry (RawNodeEntry.mk name none comment)) []
      = name ++ [40, 41] := by
  refine ⟨rfl, rfl, ?_⟩
  simp [debug_render, parse_node_entry, List.intercalate]
